import Mathlib

/-!
Shallow embedding of the `lint_apptester` crate: a directory-scoped static
rule engine.  The filesystem is modelled as an existence predicate
`String → Bool` for layout resolution and as a map from directory paths to
optional listings for scanning; environment variables are modelled as
`Option String` fields of `Env`.  Fallible Rust code (`?`) is an `err`
result, `unwrap` panics are an `abortedRun` result.
-/

namespace LintApptester

/-- Rust `str::trim`: strip leading and trailing whitespace, at the
character-list level so concrete inputs evaluate. -/
def trimChars (cs : List Char) : List Char :=
  ((cs.dropWhile Char.isWhitespace).reverse.dropWhile Char.isWhitespace).reverse

/-- Rust `str::trim` on a string. -/
def rustTrim (s : String) : String := ⟨trimChars s.data⟩

/-- Rust `str::starts_with`. -/
def rustStartsWith (s pre : String) : Bool := pre.data.isPrefixOf s.data

/-- Rust `str::to_lowercase` (ASCII case mapping). -/
def rustToLower (s : String) : String := ⟨s.data.map Char.toLower⟩

/-- Rust `str::contains`: substring occurrence. -/
def strContains (s pat : String) : Bool :=
  decide (pat.data <:+: s.data)

/-- The `DirType` enum from lib.rs. -/
inductive DirType where
  | Features
  | Interactions
  | Pages
  | Steps
deriving DecidableEq

/-- The `{:?}` Debug rendering of `DirType` used in the header line. -/
def dirTypeStr : DirType → String
  | .Features => "Features"
  | .Interactions => "Interactions"
  | .Pages => "Pages"
  | .Steps => "Steps"

/-- The `Subdir` struct: a path together with its role tag. -/
structure Subdir where
  path : String
  subdir_type : DirType
deriving DecidableEq

/-- The environment variables the program reads, each possibly unset. -/
structure Env where
  features_path : Option String
  interactions_path : Option String
  pages_path : Option String
  steps_path : Option String
  locator_class_path : Option String

/-- The `std::env::var`: `Ok` when set, `Err` when unset (propagated by `?`). -/
def getVar : Option String → Except String String
  | some s => .ok s
  | none => .error "environment variable not found"

/-- The `Subdir::new`: existence check on the path, error names the missing path. -/
def Subdir.new (fs : String → Bool) (subdir_path_string : String)
    (subdir_type : DirType) : Except String Subdir :=
  if fs subdir_path_string then .ok ⟨subdir_path_string, subdir_type⟩
  else .error ("Could not locate " ++ subdir_path_string)

/-- The `Project` struct: lowercased feature name and the four role subdirectories. -/
structure Project where
  feature_being_tested : String
  features_subdir : Subdir
  interactions_subdir : Subdir
  pages_subdir : Subdir
  steps_subdir : Subdir
deriving DecidableEq

/-- The `Project::init`: lowercase the feature, read the four path segments from
the environment, build each role path as root ++ segment ++ feature and
verify its existence via `Subdir.new`. -/
def Project.init (fs : String → Bool) (env : Env) (project_root : String)
    (feature : String) : Except String Project :=
  let feature_being_tested := rustToLower feature
  match getVar env.features_path with
  | .error e => .error e
  | .ok features_path_string =>
    match Subdir.new fs (project_root ++ features_path_string ++ feature_being_tested)
        DirType.Features with
    | .error e => .error e
    | .ok features_subdir =>
      match getVar env.interactions_path with
      | .error e => .error e
      | .ok interactions_path_string =>
        match Subdir.new fs (project_root ++ interactions_path_string ++ feature_being_tested)
            DirType.Interactions with
        | .error e => .error e
        | .ok interactions_subdir =>
          match getVar env.pages_path with
          | .error e => .error e
          | .ok pages_path_string =>
            match Subdir.new fs (project_root ++ pages_path_string ++ feature_being_tested)
                DirType.Pages with
            | .error e => .error e
            | .ok pages_subdir =>
              match getVar env.steps_path with
              | .error e => .error e
              | .ok steps_path_string =>
                match Subdir.new fs (project_root ++ steps_path_string ++ feature_being_tested)
                    DirType.Steps with
                | .error e => .error e
                | .ok steps_subdir =>
                  .ok ⟨feature_being_tested, features_subdir, interactions_subdir,
                       pages_subdir, steps_subdir⟩

/-- The `Project::get_subdirs`: the four subdirectories in fixed order. -/
def Project.get_subdirs (p : Project) : List Subdir :=
  [p.features_subdir, p.interactions_subdir, p.pages_subdir, p.steps_subdir]

/-- Result of one rule-predicate evaluation: emitted stderr diagnostics plus
the compliance boolean. -/
structure PredResult where
  diags : List String
  compliant : Bool
deriving DecidableEq

/-- The `Rule` struct: name, predicate over the file content (as lines, already
decoded), and the set of roles the rule applies to. -/
structure Rule where
  name : String
  rule : List String → PredResult
  dir_types : List DirType

/-- The `Rules` struct: ordered collection of rules. -/
structure Rules where
  rules : List Rule

/-- The "Log instead of sout" predicate body: trim every line, skip lines
before the first one starting with "public class", drop comment lines, then
demand no remaining line starts with "System.out.print". -/
def log_instead_of_sout_pred (lines : List String) : Bool :=
  ((((lines.map rustTrim).dropWhile fun l => !rustStartsWith l "public class").filter
      fun l => !rustStartsWith l "//").all fun l => !rustStartsWith l "System.out.print")

/-- The `get_log_instead_of_sout` from the rules module. -/
def get_log_instead_of_sout : Rule :=
  ⟨"Log instead of sout",
   fun lines => ⟨[], log_instead_of_sout_pred lines⟩,
   [DirType.Interactions, DirType.Pages, DirType.Steps]⟩

/-- The "No assert calls" predicate body: same skip and comment policy, then
demand no remaining line contains "assert". -/
def no_assert_calls_pred (lines : List String) : Bool :=
  ((((lines.map rustTrim).dropWhile fun l => !rustStartsWith l "public class").filter
      fun l => !rustStartsWith l "//").all fun l => !(strContains l "assert"))

/-- The `get_no_assert_calls` from the rules module. -/
def get_no_assert_calls : Rule :=
  ⟨"No assert calls",
   fun lines => ⟨[], no_assert_calls_pred lines⟩,
   [DirType.Steps]⟩

/-- The "No locator calls" predicate body: if LOCATOR_CLASS_PATH is unset,
emit a diagnostic and return non-compliant; otherwise keep only the trimmed
lines before the first "public class" line, drop comments, and demand no
remaining line starts with the configured qualifier. -/
def no_locator_calls_pred (locator_class_path : Option String)
    (lines : List String) : PredResult :=
  match locator_class_path with
  | none => ⟨["Could not find variable LOCATOR_CLASS_PATH"], false⟩
  | some q =>
    ⟨[], (((lines.map rustTrim).takeWhile fun l => !rustStartsWith l "public class").filter
        fun l => !rustStartsWith l "//").all fun l => !rustStartsWith l q⟩

/-- The `get_no_locator_calls` from the rules module, with the environment value
passed explicitly. -/
def get_no_locator_calls (locator_class_path : Option String) : Rule :=
  ⟨"No locator calls",
   no_locator_calls_pred locator_class_path,
   [DirType.Steps, DirType.Interactions]⟩

/-- The "Use platform Locator methods" predicate body: after the skip and
comment policy, among lines containing "Locator." demand each contains
"Platform" or "Children". -/
def platform_locator_methods_pred (lines : List String) : Bool :=
  (((((lines.map rustTrim).dropWhile fun l => !rustStartsWith l "public class").filter
      fun l => !rustStartsWith l "//").filter fun l => strContains l "Locator.").all
    fun l => strContains l "Platform" || strContains l "Children")

/-- The `get_platform_locator_methods` from the rules module. -/
def get_platform_locator_methods : Rule :=
  ⟨"Use platform Locator methods",
   fun lines => ⟨[], platform_locator_methods_pred lines⟩,
   [DirType.Pages]⟩

/-- The `rules::get_rules`: the fixed catalog, in source order. -/
def get_rules (env : Env) : Rules :=
  ⟨[get_log_instead_of_sout,
    get_no_assert_calls,
    get_no_locator_calls env.locator_class_path,
    get_platform_locator_methods]⟩

/-- Splitting a character list at each dot, for `Path::extension`. -/
def splitOnDot : List Char → List (List Char)
  | [] => [[]]
  | c :: rest =>
    match splitOnDot rest with
    | [] => if c = '.' then [[], []] else [[c]]
    | h :: t => if c = '.' then [] :: h :: t else (c :: h) :: t

/-- Rust `Path::extension` on a file name: `none` when there is no dot, or
when the only dot is the leading character; otherwise the part after the
final dot. -/
def rustExtension (name : String) : Option String :=
  match splitOnDot name.data with
  | [] => none
  | [_] => none
  | first :: rest =>
    if first.isEmpty && rest.length == 1 then none
    else (rest.getLast?).map fun cs => ⟨cs⟩

/-- The eligibility test from `process_subdir`:
`["feature", "java", "js"].contains(extension().unwrap_or_default())`. -/
def eligibleExt (name : String) : Bool :=
  ["feature", "java", "js"].contains ((rustExtension name).getD "")

/-- The `HashMap<&str, bool>` of rule outcomes, modelled as an association
list where insertion prepends and lookup takes the first match. -/
abbrev StatusMap := List (String × Bool)

def insertStatus (m : StatusMap) (k : String) (v : Bool) : StatusMap :=
  (k, v) :: m

def lookupStatus (m : StatusMap) (k : String) : Option Bool :=
  (m.find? fun kv => kv.1 == k).map Prod.snd

/-- Outcome of a run fragment: `ok`, an `Err` propagated by `?`, or a panic
from an `unwrap`. -/
inductive ProcResult (α : Type) where
  | ok : α → ProcResult α
  | err : String → ProcResult α
  | abortedRun : String → ProcResult α
deriving DecidableEq

/-- A directory entry: file name plus its content as lines, `none` when the
file cannot be opened. -/
structure Entry where
  name : String
  content : Option (List String)
deriving DecidableEq

/-- The rule filter at the top of `process_subdir`. -/
def filter_rules (rules : Rules) (subdir : Subdir) : List Rule :=
  rules.rules.filter fun rule => rule.dir_types.contains subdir.subdir_type

/-- Initialisation loop of `process_subdir`: every filtered rule's outcome
starts compliant. -/
def init_status_map (rs : List Rule) : StatusMap :=
  rs.foldl (fun m rule => insertStatus m rule.name true) []

/-- Inner loop of the scan: for one eligible entry, open the file once per
rule (an open failure is an `Err` propagated by `?`), record the predicate
invocation, and flip the rule's outcome to non-compliant when the predicate
rejects.  Accumulates (file, rule) invocations and stderr diagnostics. -/
def apply_rules (t : DirType) (e : Entry) :
    List Rule → StatusMap → List (String × String) → List String →
    ProcResult (StatusMap × List (String × String) × List String)
  | [], m, ev, dg => .ok (m, ev, dg)
  | rule :: rest, m, ev, dg =>
    match e.content with
    | none => .err ("Could not open " ++ e.name)
    | some lines =>
      let r := rule.rule lines
      let m := if rule.dir_types.contains t && !r.compliant
        then insertStatus m rule.name false else m
      apply_rules t e rest m (ev ++ [(e.name, rule.name)]) (dg ++ r.diags)

/-- Outer loop of the scan: entries with an ineligible extension are skipped
without being opened; eligible entries go through `apply_rules`. -/
def scan_entries (t : DirType) (rs : List Rule) :
    List Entry → StatusMap → List (String × String) → List String →
    ProcResult (StatusMap × List (String × String) × List String)
  | [], m, ev, dg => .ok (m, ev, dg)
  | e :: rest, m, ev, dg =>
    if eligibleExt e.name then
      match apply_rules t e rs m ev dg with
      | .ok (m, ev, dg) => scan_entries t rs rest m ev dg
      | .err s => .err s
      | .abortedRun s => .abortedRun s
    else scan_entries t rs rest m ev dg

/-- The `print_results`: one "  - name: PASS/FAIL" line per filtered rule; the
`unwrap` on the map lookup panics when the name is absent. -/
def print_results : List Rule → StatusMap → ProcResult (List String)
  | [], _ => .ok []
  | rule :: rest, m =>
    match lookupStatus m rule.name with
    | none => .abortedRun "called Option::unwrap() on a None value"
    | some b =>
      match print_results rest m with
      | .ok ls => .ok (("  - " ++ rule.name ++ ": " ++ (if b then "PASS" else "FAIL")) :: ls)
      | .err s => .err s
      | .abortedRun s => .abortedRun s

/-- Everything `process_subdir` produces besides its `Result`: stdout lines,
stderr diagnostics, the predicate invocations performed, and the final
outcome map. -/
structure ScanOutput where
  outLines : List String
  errLines : List String
  evals : List (String × String)
  statusMap : StatusMap
deriving DecidableEq

/-- The `process_subdir`: print the header, early-return with the "no rules"
message when no rule applies to the role; otherwise `read_dir` (its `unwrap`
panics when the directory is unreadable), scan the entries and print the
per-rule results. -/
def process_subdir (subdir : Subdir) (rules : Rules)
    (listing : Option (List Entry)) : ProcResult ScanOutput :=
  let rs := filter_rules rules subdir
  let header := dirTypeStr subdir.subdir_type ++ " (" ++ subdir.path ++ "):"
  if rs.isEmpty then
    .ok ⟨[header, "  # No rules for this directory"], [], [], []⟩
  else
    match listing with
    | none => .abortedRun "called Result::unwrap() on an Err value"
    | some entries =>
      match scan_entries subdir.subdir_type rs entries (init_status_map rs) [] [] with
      | .ok (m, ev, dg) =>
        match print_results rs m with
        | .ok resultLines => .ok ⟨header :: resultLines, dg, ev, m⟩
        | .err s => .err s
        | .abortedRun s => .abortedRun s
      | .err s => .err s
      | .abortedRun s => .abortedRun s

/-- The loop body of `run` in main.rs over a list of subdirectories: any
fatal result stops the sequence. -/
def run_subdirs (rules : Rules) (fsys : String → Option (List Entry)) :
    List Subdir → ProcResult Unit
  | [] => .ok ()
  | sd :: rest =>
    match process_subdir sd rules (fsys sd.path) with
    | .ok _ => run_subdirs rules fsys rest
    | .err s => .err s
    | .abortedRun s => .abortedRun s

/-- The `run` from main.rs: build the catalog and process every subdirectory in
`get_subdirs` order. -/
def run (env : Env) (project : Project) (fsys : String → Option (List Entry)) :
    ProcResult Unit :=
  run_subdirs (get_rules env) fsys project.get_subdirs

/-- The process exit status main.rs produces from `run`: 0 on `Ok`, 1 when
`run` returns an error, 101 when a panic aborts the process. -/
def exit_code : ProcResult Unit → Nat
  | .ok _ => 0
  | .err _ => 1
  | .abortedRun _ => 101

/-- The stderr line main.rs produces from `run`'s outcome. -/
def error_diag : ProcResult Unit → Option String
  | .ok _ => none
  | .err e => some ("Application error: " ++ e)
  | .abortedRun s => some s

/-! ### Helper lemmas -/

/-- The `dropWhile` with a negated predicate drops exactly the prefix before the
first index satisfying the predicate. -/
theorem dropWhile_not_eq_drop_findIdx {α : Type} (p : α → Bool) (L : List α) :
    (L.dropWhile fun x => !(p x)) = L.drop (L.findIdx p) := by
  induction L with
  | nil => rfl
  | cons a L ih =>
    cases h : p a with
    | true => simp [List.dropWhile_cons, List.findIdx_cons, h]
    | false => simp [List.dropWhile_cons, List.findIdx_cons, h, ih]

/-! ### C8 -/

/-- C8: the log-instead-of-print predicate skips all lines before the first
line starting a top-level type declaration, ignores comment lines among the
rest, and is compliant iff no remaining non-comment line begins a direct
console-print invocation; the `public class X {` / `System.out.println`
example fails and its comment variant passes. -/
theorem c8_log_instead_of_sout_spec (lines : List String) :
    (log_instead_of_sout_pred lines = true ↔
      ∀ l ∈ (lines.map rustTrim).drop
          ((lines.map rustTrim).findIdx fun s => rustStartsWith s "public class"),
        rustStartsWith l "//" = false → rustStartsWith l "System.out.print" = false) ∧
    log_instead_of_sout_pred ["public class X \x7b", "System.out.println(\"x\");"] = false ∧
    log_instead_of_sout_pred ["public class X \x7b", "//System.out.println(\"x\");"] = true := by
  refine ⟨?_, by decide, by decide⟩
  unfold log_instead_of_sout_pred
  rw [dropWhile_not_eq_drop_findIdx (fun s => rustStartsWith s "public class")]
  constructor
  · intro h l hl hc
    have hm : l ∈ ((lines.map rustTrim).drop
        ((lines.map rustTrim).findIdx fun s => rustStartsWith s "public class")).filter
        fun l => !rustStartsWith l "//" := List.mem_filter.mpr ⟨hl, by simp [hc]⟩
    have := List.all_eq_true.mp h l hm
    simpa using this
  · intro h
    refine List.all_eq_true.mpr ?_
    intro l hl
    obtain ⟨hmem, hq⟩ := List.mem_filter.mp hl
    simp only [Bool.not_eq_true'] at hq
    simpa using h l hmem hq

/-- Witness for C8 at a concrete file. -/
theorem c8_witness :
    ((log_instead_of_sout_pred ["import a;", "public class X \x7b", "Log.info(\"x\");"] = true ↔
      ∀ l ∈ ((["import a;", "public class X \x7b", "Log.info(\"x\");"].map rustTrim).drop
          ((["import a;", "public class X \x7b", "Log.info(\"x\");"].map rustTrim).findIdx
            fun s => rustStartsWith s "public class")),
        rustStartsWith l "//" = false → rustStartsWith l "System.out.print" = false) ∧
    log_instead_of_sout_pred ["public class X \x7b", "System.out.println(\"x\");"] = false ∧
    log_instead_of_sout_pred ["public class X \x7b", "//System.out.println(\"x\");"] = true) :=
  c8_log_instead_of_sout_spec ["import a;", "public class X \x7b", "Log.info(\"x\");"]

/-! ### C10 -/

/-- C10: for a file none of whose trimmed lines starts with `public class`,
the log-instead-of-print, no-assert-calls and platform-locator-methods
predicates are compliant regardless of content, while the no-locator-calls
predicate examines every non-comment line of the entire file. -/
theorem c10_no_class_marker (lines : List String) (q : String)
    (h : ∀ l ∈ lines, rustStartsWith (rustTrim l) "public class" = false) :
    log_instead_of_sout_pred lines = true ∧
    no_assert_calls_pred lines = true ∧
    platform_locator_methods_pred lines = true ∧
    no_locator_calls_pred (some q) lines =
      ⟨[], ((lines.map rustTrim).filter fun l => !rustStartsWith l "//").all
        fun l => !rustStartsWith l q⟩ := by
  have hall : ∀ l ∈ lines.map rustTrim, (!rustStartsWith l "public class") = true := by
    intro l hl
    obtain ⟨x, hx, rfl⟩ := List.mem_map.mp hl
    simp [h x hx]
  have hdrop : ((lines.map rustTrim).dropWhile fun l => !rustStartsWith l "public class") = [] :=
    List.dropWhile_eq_nil_iff.mpr hall
  have htake : ((lines.map rustTrim).takeWhile fun l => !rustStartsWith l "public class") =
      lines.map rustTrim :=
    List.takeWhile_eq_self_iff.mpr hall
  exact ⟨by simp [log_instead_of_sout_pred, hdrop],
         by simp [no_assert_calls_pred, hdrop],
         by simp [platform_locator_methods_pred, hdrop],
         by simp [no_locator_calls_pred, htake]⟩

/-- Witness for C10 at a concrete file with no type declaration. -/
theorem c10_witness :
    log_instead_of_sout_pred ["import a;", "System.out.println(\"x\");"] = true ∧
    no_assert_calls_pred ["import a;", "System.out.println(\"x\");"] = true ∧
    platform_locator_methods_pred ["import a;", "System.out.println(\"x\");"] = true ∧
    no_locator_calls_pred (some "com.app.Locator") ["import a;", "System.out.println(\"x\");"] =
      ⟨[], (((["import a;", "System.out.println(\"x\");"]).map rustTrim).filter
          fun l => !rustStartsWith l "//").all
        fun l => !rustStartsWith l "com.app.Locator"⟩ :=
  c10_no_class_marker ["import a;", "System.out.println(\"x\");"] "com.app.Locator" (by decide)

/-! ### Scanner machinery lemmas -/

/-- On a readable file, `apply_rules` never fails. -/
theorem apply_rules_some_ok (t : DirType) (nm : String) (ls : List String) :
    ∀ (rs : List Rule) (m : StatusMap) (ev : List (String × String)) (dg : List String),
      ∃ res, apply_rules t ⟨nm, some ls⟩ rs m ev dg = .ok res := by
  intro rs
  induction rs with
  | nil => intro m ev dg; exact ⟨(m, ev, dg), rfl⟩
  | cons r rs ih =>
    intro m ev dg
    simpa [apply_rules] using ih _ _ _

/-- The `apply_rules` only ever overwrites an outcome with `false`: a present
lookup stays present, and a `false` lookup stays `false`. -/
theorem apply_rules_lookup (t : DirType) (e : Entry) :
    ∀ (rs : List Rule) (m : StatusMap) (ev : List (String × String)) (dg : List String)
      (res : StatusMap × List (String × String) × List String),
      apply_rules t e rs m ev dg = .ok res → ∀ name,
        lookupStatus res.1 name = lookupStatus m name ∨ lookupStatus res.1 name = some false := by
  intro rs
  induction rs with
  | nil =>
    intro m ev dg res h name
    cases e with
    | mk nm content =>
      simp only [apply_rules] at h
      cases h
      exact Or.inl rfl
  | cons r rs ih =>
    intro m ev dg res h name
    cases e with
    | mk nm content =>
      cases content with
      | none => simp [apply_rules] at h
      | some ls =>
        simp only [apply_rules] at h
        by_cases hcut : (r.dir_types.contains t && !(r.rule ls).compliant) = true
        · rw [if_pos hcut] at h
          rcases ih _ _ _ _ h name with h' | h'
          · by_cases hn : name = r.name
            · subst hn
              right
              rw [h']
              simp [insertStatus, lookupStatus]
            · left
              rw [h']
              simp [insertStatus, lookupStatus, hn, Ne.symm hn]
          · exact Or.inr h'
        · rw [if_neg hcut] at h
          exact ih _ _ _ _ h name

/-- The `scan_entries` preserves present lookups and never resets `false`. -/
theorem scan_entries_lookup (t : DirType) (rs : List Rule) :
    ∀ (entries : List Entry) (m : StatusMap) (ev : List (String × String)) (dg : List String)
      (res : StatusMap × List (String × String) × List String),
      scan_entries t rs entries m ev dg = .ok res → ∀ name,
        lookupStatus res.1 name = lookupStatus m name ∨ lookupStatus res.1 name = some false := by
  intro entries
  induction entries with
  | nil =>
    intro m ev dg res h name
    simp only [scan_entries] at h
    cases h
    exact Or.inl rfl
  | cons e rest ih =>
    intro m ev dg res h name
    simp only [scan_entries] at h
    by_cases helig : eligibleExt e.name = true
    · rw [if_pos helig] at h
      cases happ : apply_rules t e rs m ev dg with
      | ok mid =>
        rw [happ] at h
        rcases ih _ _ _ _ h name with h' | h'
        · rcases apply_rules_lookup t e rs m ev dg mid happ name with h'' | h''
          · exact Or.inl (h'.trans h'')
          · exact Or.inr (h'.trans h'')
        · exact Or.inr h'
      | err s => rw [happ] at h; exact absurd h (by simp)
      | abortedRun s => rw [happ] at h; exact absurd h (by simp)
    · rw [if_neg helig] at h
      exact ih _ _ _ _ h name

/-- On a listing of readable files, `scan_entries` never fails. -/
theorem scan_entries_readable_ok (t : DirType) (rs : List Rule) :
    ∀ (entries : List Entry) (m : StatusMap) (ev : List (String × String)) (dg : List String),
      (∀ e ∈ entries, e.content ≠ none) →
      ∃ res, scan_entries t rs entries m ev dg = .ok res := by
  intro entries
  induction entries with
  | nil => intro m ev dg _; exact ⟨(m, ev, dg), rfl⟩
  | cons e rest ih =>
    intro m ev dg hread
    by_cases helig : eligibleExt e.name = true
    · cases hc : e.content with
      | none => exact absurd hc (hread e (by simp))
      | some ls =>
        obtain ⟨mid, hmid⟩ := apply_rules_some_ok t e.name ls rs m ev dg
        obtain ⟨res, hres⟩ := ih mid.1 mid.2.1 mid.2.2 (fun x hx => hread x (by simp [hx]))
        refine ⟨res, ?_⟩
        have he : e = ⟨e.name, some ls⟩ := by cases e; simp_all
        rw [scan_entries, if_pos helig, he, hmid]
        exact hres
    · obtain ⟨res, hres⟩ := ih m ev dg (fun x hx => hread x (by simp [hx]))
      exact ⟨res, by rw [scan_entries, if_neg helig]; exact hres⟩

/-- Lookup in a fold of `true` insertions whose names avoid `name` is
unchanged. -/
theorem lookup_foldl_insert_not_mem (v : Bool) :
    ∀ (rs : List Rule) (m : StatusMap) (name : String),
      (∀ r ∈ rs, r.name ≠ name) →
      lookupStatus (rs.foldl (fun m rule => insertStatus m rule.name v) m) name =
        lookupStatus m name := by
  intro rs
  induction rs with
  | nil => intro m name _; rfl
  | cons r rs ih =>
    intro m name h
    rw [List.foldl_cons, ih _ _ (fun x hx => h x (by simp [hx]))]
    simp [insertStatus, lookupStatus, h r (by simp)]

/-- Every rule present in the list gets outcome `true` in the initial map. -/
theorem lookup_init_status_map :
    ∀ (rs : List Rule) (m : StatusMap) (name : String),
      (∃ r ∈ rs, r.name = name) →
      lookupStatus (rs.foldl (fun m rule => insertStatus m rule.name true) m) name = some true := by
  intro rs
  induction rs with
  | nil => intro m name h; simp at h
  | cons r rs ih =>
    intro m name h
    by_cases hmem : ∃ r' ∈ rs, r'.name = name
    · rw [List.foldl_cons]
      exact ih _ _ hmem
    · obtain ⟨r', hr', hname⟩ := h
      rcases List.mem_cons.mp hr' with rfl | hr'
      · rw [List.foldl_cons,
          lookup_foldl_insert_not_mem true rs _ name (by push_neg at hmem; exact hmem)]
        simp [insertStatus, lookupStatus, hname]
      · exact absurd ⟨r', hr', hname⟩ hmem

/-- When every rule's name is present in the map, `print_results` succeeds. -/
theorem print_results_ok :
    ∀ (rs : List Rule) (m : StatusMap),
      (∀ r ∈ rs, ∃ b, lookupStatus m r.name = some b) →
      ∃ ls, print_results rs m = .ok ls := by
  intro rs
  induction rs with
  | nil => intro m _; exact ⟨[], rfl⟩
  | cons r rs ih =>
    intro m h
    obtain ⟨b, hb⟩ := h r (by simp)
    obtain ⟨ls, hls⟩ := ih m (fun x hx => h x (by simp [hx]))
    exact ⟨("  - " ++ r.name ++ ": " ++ (if b then "PASS" else "FAIL")) :: ls,
      by rw [print_results, hb, hls]⟩

/-- A scan of a readable listing always completes: `process_subdir` returns
`ok` whatever the rule outcomes are. -/
theorem process_subdir_readable_isOk (subdir : Subdir) (rules : Rules) (entries : List Entry)
    (hread : ∀ e ∈ entries, e.content ≠ none) :
    ∃ out, process_subdir subdir rules (some entries) = .ok out := by
  by_cases hrs : (filter_rules rules subdir).isEmpty = true
  · exact ⟨_, by rw [process_subdir, if_pos hrs]⟩
  · obtain ⟨res, hres⟩ := scan_entries_readable_ok subdir.subdir_type
      (filter_rules rules subdir) entries
      (init_status_map (filter_rules rules subdir)) [] [] hread
    have htotal : ∀ r ∈ filter_rules rules subdir, ∃ b, lookupStatus res.1 r.name = some b := by
      intro r hr
      have hinit : lookupStatus (init_status_map (filter_rules rules subdir)) r.name =
          some true := lookup_init_status_map _ [] r.name ⟨r, hr, rfl⟩
      rcases scan_entries_lookup subdir.subdir_type (filter_rules rules subdir)
          entries _ [] [] res hres r.name with h' | h'
      · exact ⟨true, h'.trans hinit⟩
      · exact ⟨false, h'⟩
    obtain ⟨ls, hls⟩ := print_results_ok (filter_rules rules subdir) res.1 htotal
    obtain ⟨m, ev, dg⟩ := res
    exact ⟨⟨(dirTypeStr subdir.subdir_type ++ " (" ++ subdir.path ++ "):") :: ls, dg, ev, m⟩,
      by rw [process_subdir, if_neg hrs, hres]; simp [hls]⟩

/-! ### Concrete configurations for witnesses -/

/-- A fully populated environment. -/
def envC : Env :=
  ⟨some "/features/", some "/interactions/", some "/pages/", some "/steps/",
   some "com.app.Locator"⟩

/-- An environment with the locator-class qualifier unset. -/
def envNoLoc : Env :=
  ⟨some "/features/", some "/interactions/", some "/pages/", some "/steps/", none⟩

/-! ### C4 -/

/-- C4: with the locator-class qualifier unavailable, the no-locator-calls
predicate is non-compliant on every file and emits a diagnostic, and a scan
of any readable subdirectory still completes without aborting. -/
theorem c4_locator_fail_closed (env : Env) (hq : env.locator_class_path = none)
    (lines : List String) (subdir : Subdir) (entries : List Entry)
    (hread : ∀ e ∈ entries, e.content ≠ none) :
    (get_no_locator_calls env.locator_class_path).rule lines =
      ⟨["Could not find variable LOCATOR_CLASS_PATH"], false⟩ ∧
    ∃ out, process_subdir subdir (get_rules env) (some entries) = .ok out := by
  refine ⟨?_, process_subdir_readable_isOk subdir (get_rules env) entries hread⟩
  rw [hq]
  rfl

/-- Witness for C4: an unset qualifier on a concrete Steps scan. -/
theorem c4_witness :
    (get_no_locator_calls envNoLoc.locator_class_path).rule ["com.app.Locator.x;"] =
      ⟨["Could not find variable LOCATOR_CLASS_PATH"], false⟩ ∧
    ∃ out, process_subdir ⟨"/r/steps/f", DirType.Steps⟩ (get_rules envNoLoc)
      (some [⟨"a.java", some ["public class X \x7b"]⟩]) = .ok out :=
  c4_locator_fail_closed envNoLoc rfl ["com.app.Locator.x;"] ⟨"/r/steps/f", DirType.Steps⟩
    [⟨"a.java", some ["public class X \x7b"]⟩] (by decide)

/-! ### C7 -/

/-- C7: a subdirectory whose role matches no rule gets the header and the
"no rules" message, returns successfully without opening or evaluating any
file, and produces zero outcomes. -/
theorem c7_no_rules_message (subdir : Subdir) (rules : Rules)
    (listing : Option (List Entry)) (h : filter_rules rules subdir = []) :
    process_subdir subdir rules listing =
      .ok ⟨[dirTypeStr subdir.subdir_type ++ " (" ++ subdir.path ++ "):",
            "  # No rules for this directory"], [], [], []⟩ := by
  simp [process_subdir, h]

/-- Witness for C7: the Features role matches no rule of the catalog. -/
theorem c7_witness :
    process_subdir ⟨"/r/features/f", DirType.Features⟩ (get_rules envC)
        (some [⟨"a.feature", some ["Feature: x"]⟩]) =
      .ok ⟨["Features (/r/features/f):", "  # No rules for this directory"], [], [], []⟩ :=
  c7_no_rules_message ⟨"/r/features/f", DirType.Features⟩ (get_rules envC)
    (some [⟨"a.feature", some ["Feature: x"]⟩]) rfl

/-! ### C3 -/

/-- When every subdirectory scan succeeds, the orchestration loop succeeds. -/
theorem run_subdirs_ok (rules : Rules) (fsys : String → Option (List Entry)) :
    ∀ (sds : List Subdir),
      (∀ sd ∈ sds, ∃ out, process_subdir sd rules (fsys sd.path) = .ok out) →
      run_subdirs rules fsys sds = .ok () := by
  intro sds
  induction sds with
  | nil => intro _; rfl
  | cons sd rest ih =>
    intro h
    obtain ⟨out, hout⟩ := h sd (by simp)
    rw [run_subdirs, hout]
    exact ih (fun x hx => h x (by simp [hx]))

/-- C3: when layout resolution has produced a project and every subdirectory
is processed without fatal error, the process exits with status zero,
whatever the rule outcomes inside those successful scans are. -/
theorem c3_exit_zero (env : Env) (project : Project) (fsys : String → Option (List Entry))
    (h : ∀ sd ∈ project.get_subdirs, ∃ out,
        process_subdir sd (get_rules env) (fsys sd.path) = .ok out) :
    run env project fsys = .ok () ∧ exit_code (run env project fsys) = 0 := by
  have hok := run_subdirs_ok (get_rules env) fsys project.get_subdirs h
  exact ⟨hok, by rw [run, hok]; rfl⟩

/-- A concrete project for the run-level witnesses. -/
def projC : Project :=
  ⟨"f", ⟨"/r/features/f", DirType.Features⟩, ⟨"/r/interactions/f", DirType.Interactions⟩,
   ⟨"/r/pages/f", DirType.Pages⟩, ⟨"/r/steps/f", DirType.Steps⟩⟩

/-- A filesystem whose every directory holds one non-compliant Java file. -/
def fsysFail : String → Option (List Entry) :=
  fun _ => some [⟨"a.java", some ["public class X \x7b", "System.out.println(\"x\");"]⟩]

/-- Witness for C3: a run in which rules FAIL still exits with status 0. -/
theorem c3_witness :
    run envC projC fsysFail = .ok () ∧ exit_code (run envC projC fsysFail) = 0 :=
  c3_exit_zero envC projC fsysFail
    (fun sd _ => process_subdir_readable_isOk sd (get_rules envC)
      [⟨"a.java", some ["public class X \x7b", "System.out.println(\"x\");"]⟩] (by decide))

/-! ### C2 -/

/-- A successful scan of a prefix composes with the scan of the rest. -/
theorem scan_entries_append (t : DirType) (rs : List Rule) :
    ∀ (l₁ l₂ : List Entry) (m : StatusMap) (ev : List (String × String)) (dg : List String)
      (res : StatusMap × List (String × String) × List String),
      scan_entries t rs l₁ m ev dg = .ok res →
      scan_entries t rs (l₁ ++ l₂) m ev dg = scan_entries t rs l₂ res.1 res.2.1 res.2.2 := by
  intro l₁
  induction l₁ with
  | nil =>
    intro l₂ m ev dg res h
    simp only [scan_entries] at h
    cases h
    rfl
  | cons e rest ih =>
    intro l₂ m ev dg res h
    rw [scan_entries] at h
    rw [List.cons_append, scan_entries]
    by_cases helig : eligibleExt e.name = true
    · rw [if_pos helig] at h ⊢
      cases happ : apply_rules t e rs m ev dg with
      | ok mid =>
        rw [happ] at h
        obtain ⟨ma, eva, dga⟩ := mid
        exact ih _ _ _ _ _ h
      | err s => rw [happ] at h; exact absurd h (by simp)
      | abortedRun s => rw [happ] at h; exact absurd h (by simp)
    · rw [if_neg helig] at h ⊢
      exact ih _ _ _ _ _ h

/-- C2: every filtered rule's outcome starts compliant, and once a scan
prefix has flipped a rule's outcome to non-compliant, scanning any further
files leaves it non-compliant. -/
theorem c2_outcome_monotonic (subdir : Subdir) (rules : Rules) (files₁ files₂ : List Entry)
    (name : String) (m₁ m₂ : StatusMap) (ev₁ ev₂ : List (String × String))
    (dg₁ dg₂ : List String)
    (h1 : scan_entries subdir.subdir_type (filter_rules rules subdir) files₁
        (init_status_map (filter_rules rules subdir)) [] [] = .ok (m₁, ev₁, dg₁))
    (hflip : lookupStatus m₁ name = some false)
    (h2 : scan_entries subdir.subdir_type (filter_rules rules subdir) (files₁ ++ files₂)
        (init_status_map (filter_rules rules subdir)) [] [] = .ok (m₂, ev₂, dg₂)) :
    (∀ r ∈ filter_rules rules subdir,
        lookupStatus (init_status_map (filter_rules rules subdir)) r.name = some true) ∧
    lookupStatus m₂ name = some false := by
  refine ⟨fun r hr => lookup_init_status_map _ [] r.name ⟨r, hr, rfl⟩, ?_⟩
  rw [scan_entries_append subdir.subdir_type (filter_rules rules subdir) files₁ files₂
    _ [] [] (m₁, ev₁, dg₁) h1] at h2
  rcases scan_entries_lookup subdir.subdir_type (filter_rules rules subdir) files₂
      m₁ ev₁ dg₁ (m₂, ev₂, dg₂) h2 name with h' | h'
  · exact h'.trans hflip
  · exact h'

/-- Witness for C2: a non-compliant Steps file followed by a compliant one
leaves the flipped outcome non-compliant. -/
theorem c2_witness :
    (∀ r ∈ filter_rules (get_rules envC) ⟨"/r/steps/f", DirType.Steps⟩,
        lookupStatus (init_status_map (filter_rules (get_rules envC)
          ⟨"/r/steps/f", DirType.Steps⟩)) r.name = some true) ∧
    lookupStatus [("Log instead of sout", false), ("No locator calls", true),
      ("No assert calls", true), ("Log instead of sout", true)]
      "Log instead of sout" = some false :=
  c2_outcome_monotonic ⟨"/r/steps/f", DirType.Steps⟩ (get_rules envC)
    [⟨"a.java", some ["public class X \x7b", "System.out.println(\"x\");"]⟩]
    [⟨"b.java", some ["public class Y \x7b"]⟩]
    "Log instead of sout"
    [("Log instead of sout", false), ("No locator calls", true),
      ("No assert calls", true), ("Log instead of sout", true)]
    [("Log instead of sout", false), ("No locator calls", true),
      ("No assert calls", true), ("Log instead of sout", true)]
    [("a.java", "Log instead of sout"), ("a.java", "No assert calls"),
      ("a.java", "No locator calls")]
    [("a.java", "Log instead of sout"), ("a.java", "No assert calls"),
      ("a.java", "No locator calls"), ("b.java", "Log instead of sout"),
      ("b.java", "No assert calls"), ("b.java", "No locator calls")]
    [] []
    (by decide) (by decide) (by decide)

/-! ### C6 -/

/-- On a readable file, `apply_rules` records exactly one predicate
invocation per rule, in rule order. -/
theorem apply_rules_evals (t : DirType) (nm : String) (ls : List String) :
    ∀ (rs : List Rule) (m : StatusMap) (ev : List (String × String)) (dg : List String)
      (res : StatusMap × List (String × String) × List String),
      apply_rules t ⟨nm, some ls⟩ rs m ev dg = .ok res →
      res.2.1 = ev ++ rs.map fun r => (nm, r.name) := by
  intro rs
  induction rs with
  | nil =>
    intro m ev dg res h
    simp only [apply_rules] at h
    cases h
    simp
  | cons r rs ih =>
    intro m ev dg res h
    simp only [apply_rules] at h
    rw [ih _ _ _ _ h]
    simp

/-- A successful scan records exactly the invocations of every filtered rule
on every eligible entry, in directory order. -/
theorem scan_entries_evals (t : DirType) (rs : List Rule) :
    ∀ (entries : List Entry) (m : StatusMap) (ev : List (String × String)) (dg : List String)
      (res : StatusMap × List (String × String) × List String),
      (∀ e ∈ entries, e.content ≠ none) →
      scan_entries t rs entries m ev dg = .ok res →
      res.2.1 = ev ++ (entries.filter fun e => eligibleExt e.name).flatMap
        fun e => rs.map fun r => (e.name, r.name) := by
  intro entries
  induction entries with
  | nil =>
    intro m ev dg res _ h
    simp only [scan_entries] at h
    cases h
    simp
  | cons e rest ih =>
    intro m ev dg res hread h
    rw [scan_entries] at h
    by_cases helig : eligibleExt e.name = true
    · rw [if_pos helig] at h
      cases hc : e.content with
      | none => exact absurd hc (hread e (by simp))
      | some ls =>
        have he : e = ⟨e.name, some ls⟩ := by cases e; simp_all
        rw [he] at h
        cases happ : apply_rules t ⟨e.name, some ls⟩ rs m ev dg with
        | ok mid =>
          rw [happ] at h
          have hmid := apply_rules_evals t e.name ls rs m ev dg mid happ
          obtain ⟨ma, eva, dga⟩ := mid
          simp only at hmid
          have hres := ih _ _ _ _ (fun x hx => hread x (by simp [hx])) h
          rw [hres, hmid]
          simp [List.filter_cons, helig]
        | err s => rw [happ] at h; exact absurd h (by simp)
        | abortedRun s => rw [happ] at h; exact absurd h (by simp)
    · rw [if_neg helig] at h
      rw [ih _ _ _ _ (fun x hx => hread x (by simp [hx])) h]
      simp [List.filter_cons, helig]

/-- C6: a scanned subdirectory evaluates rule predicates on exactly the
entries whose extension is feature, java or js, and never on any other
entry. -/
theorem c6_only_eligible_evaluated (subdir : Subdir) (rules : Rules) (entries : List Entry)
    (out : ScanOutput)
    (hread : ∀ e ∈ entries, e.content ≠ none)
    (hok : process_subdir subdir rules (some entries) = .ok out) :
    out.evals = (entries.filter fun e => eligibleExt e.name).flatMap
        (fun e => (filter_rules rules subdir).map fun r => (e.name, r.name)) ∧
    ∀ p ∈ out.evals, eligibleExt p.1 = true := by
  have hevals : out.evals = (entries.filter fun e => eligibleExt e.name).flatMap
      fun e => (filter_rules rules subdir).map fun r => (e.name, r.name) := by
    rw [process_subdir] at hok
    by_cases hrs : (filter_rules rules subdir).isEmpty = true
    · rw [if_pos hrs] at hok
      cases hok
      rw [List.isEmpty_iff.mp hrs]
      simp
    · rw [if_neg hrs] at hok
      cases hscan : scan_entries subdir.subdir_type (filter_rules rules subdir) entries
          (init_status_map (filter_rules rules subdir)) [] [] with
      | ok res =>
        have hres := scan_entries_evals subdir.subdir_type (filter_rules rules subdir)
          entries _ [] [] res hread hscan
        obtain ⟨m, ev, dg⟩ := res
        simp only [hscan] at hok
        cases hpr : print_results (filter_rules rules subdir) m with
        | ok ls =>
          simp only [hpr] at hok
          cases hok
          simpa using hres
        | err s => simp only [hpr] at hok; exact absurd hok (by simp)
        | abortedRun s => simp only [hpr] at hok; exact absurd hok (by simp)
      | err s => rw [hscan] at hok; exact absurd hok (by simp)
      | abortedRun s => rw [hscan] at hok; exact absurd hok (by simp)
  refine ⟨hevals, ?_⟩
  intro p hp
  rw [hevals] at hp
  obtain ⟨e, he, hpmem⟩ := List.mem_flatMap.mp hp
  obtain ⟨hemem, helig⟩ := List.mem_filter.mp he
  obtain ⟨r, _, rfl⟩ := List.mem_map.mp hpmem
  exact helig

/-- The directory listing used by the C6 witness: two eligible files and one
ineligible `.txt` file. -/
def entriesC6 : List Entry :=
  [⟨"a.java", some ["public class X \x7b", "System.out.println(\"x\");"]⟩,
   ⟨"b.txt", some ["x"]⟩,
   ⟨"c.feature", some ["Feature: f"]⟩]

/-- The output of the C6 witness scan. -/
def outC6 : ScanOutput :=
  ⟨["Steps (/r/steps/f):", "  - Log instead of sout: FAIL", "  - No assert calls: PASS",
    "  - No locator calls: PASS"],
   [],
   [("a.java", "Log instead of sout"), ("a.java", "No assert calls"),
    ("a.java", "No locator calls"), ("c.feature", "Log instead of sout"),
    ("c.feature", "No assert calls"), ("c.feature", "No locator calls")],
   [("Log instead of sout", false), ("No locator calls", true), ("No assert calls", true),
    ("Log instead of sout", true)]⟩

/-- Witness for C6: the `.txt` entry is never evaluated, the two eligible
entries are evaluated by every applicable rule. -/
theorem c6_witness :
    outC6.evals = (entriesC6.filter fun e => eligibleExt e.name).flatMap
        (fun e => (filter_rules (get_rules envC) ⟨"/r/steps/f", DirType.Steps⟩).map
          fun r => (e.name, r.name)) ∧
    ∀ p ∈ outC6.evals, eligibleExt p.1 = true :=
  c6_only_eligible_evaluated ⟨"/r/steps/f", DirType.Steps⟩ (get_rules envC) entriesC6 outC6
    (by decide) (by decide)

/-! ### C5 -/

/-- With at least one applicable rule, an eligible unreadable file makes the
scan fail with a propagated error. -/
theorem scan_entries_unreadable_err (t : DirType) (rs : List Rule) (hrs : rs ≠ []) :
    ∀ (entries : List Entry) (m : StatusMap) (ev : List (String × String)) (dg : List String),
      (∃ e ∈ entries, eligibleExt e.name = true ∧ e.content = none) →
      ∃ s, scan_entries t rs entries m ev dg = .err s := by
  obtain ⟨r, rs', rfl⟩ := List.exists_cons_of_ne_nil hrs
  intro entries
  induction entries with
  | nil => intro m ev dg h; simp at h
  | cons e rest ih =>
    intro m ev dg h
    obtain ⟨x, hx, hxe, hxc⟩ := h
    rcases List.mem_cons.mp hx with rfl | hx'
    · refine ⟨"Could not open " ++ x.name, ?_⟩
      rw [scan_entries, if_pos hxe]
      cases x with
      | mk nm c =>
        cases hxc
        rfl
    · by_cases helig : eligibleExt e.name = true
      · cases hc : e.content with
        | none =>
          refine ⟨"Could not open " ++ e.name, ?_⟩
          rw [scan_entries, if_pos helig]
          cases e with
          | mk nm c =>
            cases hc
            rfl
        | some ls =>
          have he : e = ⟨e.name, some ls⟩ := by cases e; simp_all
          obtain ⟨mid, hmid⟩ := apply_rules_some_ok t e.name ls (r :: rs') m ev dg
          obtain ⟨s, hs⟩ := ih mid.1 mid.2.1 mid.2.2 ⟨x, hx', hxe, hxc⟩
          refine ⟨s, ?_⟩
          rw [scan_entries, if_pos helig, he, hmid]
          exact hs
      · obtain ⟨s, hs⟩ := ih m ev dg ⟨x, hx', hxe, hxc⟩
        exact ⟨s, by rw [scan_entries, if_neg helig]; exact hs⟩

/-- An error from one subdirectory aborts the remaining orchestration
sequence, whatever follows. -/
theorem run_subdirs_err_propagates (rules : Rules) (fsys : String → Option (List Entry)) :
    ∀ (l₁ : List Subdir) (sd : Subdir) (rest : List Subdir) (s : String),
      (∀ x ∈ l₁, ∃ out, process_subdir x rules (fsys x.path) = .ok out) →
      process_subdir sd rules (fsys sd.path) = .err s →
      run_subdirs rules fsys (l₁ ++ sd :: rest) = .err s := by
  intro l₁
  induction l₁ with
  | nil =>
    intro sd rest s _ herr
    rw [List.nil_append, run_subdirs, herr]
  | cons x l₁ ih =>
    intro sd rest s hpre herr
    obtain ⟨out, hout⟩ := hpre x (by simp)
    rw [List.cons_append, run_subdirs, hout]
    exact ih sd rest s (fun y hy => hpre y (by simp [hy])) herr

/-- Counterexample to C5 as stated: an unreadable directory does not
propagate an error value to the orchestrator — the scanner panics, the
orchestrator's "Application error" path is never taken, and the process
aborts with the panic status 101 instead of the error status 1. -/
def fsysNoSteps : String → Option (List Entry) :=
  fun p => if p = "/r/steps/f" then none else some []

theorem c5_counterexample :
    run envC projC fsysNoSteps = .abortedRun "called Result::unwrap() on an Err value" ∧
    (¬ ∃ s, run envC projC fsysNoSteps = .err s) ∧
    error_diag (run envC projC fsysNoSteps) =
      some "called Result::unwrap() on an Err value" ∧
    exit_code (run envC projC fsysNoSteps) = 101 := by
  have hrun : run envC projC fsysNoSteps =
      .abortedRun "called Result::unwrap() on an Err value" := by decide
  refine ⟨hrun, ?_, by decide, by decide⟩
  rintro ⟨s, hs⟩
  rw [hrun] at hs
  exact ProcResult.noConfusion hs

/-- C5 amended: an unreadable eligible file aborts the whole run as a fatal
error propagated to the orchestrator, which exits with status 1 and the
"Application error" diagnostic; an unreadable directory (with at least one
applicable rule) aborts the run via a panic inside the scanner — exit
status 101 with the panic message — without an error value reaching the
orchestrator; neither case has per-file recovery. -/
theorem c5_fatal_io (subdir : Subdir) (rules : Rules) (entries : List Entry)
    (fsys : String → Option (List Entry)) (l₁ rest : List Subdir)
    (hne : filter_rules rules subdir ≠ [])
    (hbad : ∃ e ∈ entries, eligibleExt e.name = true ∧ e.content = none)
    (hpre : ∀ x ∈ l₁, ∃ out, process_subdir x rules (fsys x.path) = .ok out)
    (hsd : fsys subdir.path = some entries) :
    (∃ s, process_subdir subdir rules (some entries) = .err s ∧
      run_subdirs rules fsys (l₁ ++ subdir :: rest) = .err s ∧
      exit_code (run_subdirs rules fsys (l₁ ++ subdir :: rest)) = 1 ∧
      error_diag (run_subdirs rules fsys (l₁ ++ subdir :: rest)) =
        some ("Application error: " ++ s)) ∧
    process_subdir subdir rules none =
      .abortedRun "called Result::unwrap() on an Err value" ∧
    exit_code (ProcResult.abortedRun "called Result::unwrap() on an Err value") = 101 ∧
    error_diag (ProcResult.abortedRun "called Result::unwrap() on an Err value") =
      some "called Result::unwrap() on an Err value" := by
  have hrs : (filter_rules rules subdir).isEmpty ≠ true := by
    simpa [List.isEmpty_iff] using hne
  constructor
  · obtain ⟨s, hs⟩ := scan_entries_unreadable_err subdir.subdir_type
      (filter_rules rules subdir) hne entries
      (init_status_map (filter_rules rules subdir)) [] [] hbad
    have hproc : process_subdir subdir rules (some entries) = .err s := by
      rw [process_subdir, if_neg hrs, hs]
    have hrun : run_subdirs rules fsys (l₁ ++ subdir :: rest) = .err s :=
      run_subdirs_err_propagates rules fsys l₁ subdir rest s hpre (hsd ▸ hproc)
    exact ⟨s, hproc, hrun, by rw [hrun]; rfl, by rw [hrun]; rfl⟩
  · exact ⟨by rw [process_subdir, if_neg hrs], rfl, rfl⟩

/-- Filesystem for the C5 witness: the Steps directory holds one unreadable
Java file, every other directory is empty. -/
def fsysBadSteps : String → Option (List Entry) :=
  fun p => if p = "/r/steps/f" then some [⟨"a.java", none⟩] else some []

/-- Witness for the amended C5 at a concrete run. -/
theorem c5_witness :
    (∃ s, process_subdir ⟨"/r/steps/f", DirType.Steps⟩ (get_rules envC)
        (some [⟨"a.java", none⟩]) = .err s ∧
      run_subdirs (get_rules envC) fsysBadSteps
        ([⟨"/r/features/f", DirType.Features⟩, ⟨"/r/interactions/f", DirType.Interactions⟩,
          ⟨"/r/pages/f", DirType.Pages⟩] ++ ⟨"/r/steps/f", DirType.Steps⟩ :: []) = .err s ∧
      exit_code (run_subdirs (get_rules envC) fsysBadSteps
        ([⟨"/r/features/f", DirType.Features⟩, ⟨"/r/interactions/f", DirType.Interactions⟩,
          ⟨"/r/pages/f", DirType.Pages⟩] ++ ⟨"/r/steps/f", DirType.Steps⟩ :: [])) = 1 ∧
      error_diag (run_subdirs (get_rules envC) fsysBadSteps
        ([⟨"/r/features/f", DirType.Features⟩, ⟨"/r/interactions/f", DirType.Interactions⟩,
          ⟨"/r/pages/f", DirType.Pages⟩] ++ ⟨"/r/steps/f", DirType.Steps⟩ :: [])) =
        some ("Application error: " ++ s)) ∧
    process_subdir ⟨"/r/steps/f", DirType.Steps⟩ (get_rules envC) none =
      .abortedRun "called Result::unwrap() on an Err value" ∧
    exit_code (ProcResult.abortedRun "called Result::unwrap() on an Err value") = 101 ∧
    error_diag (ProcResult.abortedRun "called Result::unwrap() on an Err value") =
      some "called Result::unwrap() on an Err value" :=
  c5_fatal_io ⟨"/r/steps/f", DirType.Steps⟩ (get_rules envC) [⟨"a.java", none⟩]
    fsysBadSteps
    [⟨"/r/features/f", DirType.Features⟩, ⟨"/r/interactions/f", DirType.Interactions⟩,
      ⟨"/r/pages/f", DirType.Pages⟩] []
    (fun h => List.noConfusion h)
    ⟨⟨"a.java", none⟩, by simp, by decide, rfl⟩
    (by
      intro x hx
      fin_cases hx <;>
        exact process_subdir_readable_isOk _ (get_rules envC) [] (by simp))
    rfl

/-! ### C1 -/

/-- C1: with the four path segments configured, layout resolution lowercases
the feature name, builds each role path as root ++ segment ++ feature,
succeeds if and only if all four paths exist — in which case the layout is
exactly one Subdirectory per role — and on failure the error identifies a
missing path. -/
theorem c1_layout_resolution (fs : String → Bool) (env : Env) (root feat s₁ s₂ s₃ s₄ : String)
    (h₁ : env.features_path = some s₁) (h₂ : env.interactions_path = some s₂)
    (h₃ : env.pages_path = some s₃) (h₄ : env.steps_path = some s₄) :
    ((∃ p, Project.init fs env root feat = .ok p) ↔
      (fs (root ++ s₁ ++ rustToLower feat) = true ∧
       fs (root ++ s₂ ++ rustToLower feat) = true ∧
       fs (root ++ s₃ ++ rustToLower feat) = true ∧
       fs (root ++ s₄ ++ rustToLower feat) = true)) ∧
    (∀ p, Project.init fs env root feat = .ok p →
      p = ⟨rustToLower feat,
           ⟨root ++ s₁ ++ rustToLower feat, DirType.Features⟩,
           ⟨root ++ s₂ ++ rustToLower feat, DirType.Interactions⟩,
           ⟨root ++ s₃ ++ rustToLower feat, DirType.Pages⟩,
           ⟨root ++ s₄ ++ rustToLower feat, DirType.Steps⟩⟩) ∧
    (∀ e, Project.init fs env root feat = .error e →
      ∃ q, fs q = false ∧ e = "Could not locate " ++ q) := by
  cases hf₁ : fs (root ++ s₁ ++ rustToLower feat) <;>
    cases hf₂ : fs (root ++ s₂ ++ rustToLower feat) <;>
      cases hf₃ : fs (root ++ s₃ ++ rustToLower feat) <;>
        cases hf₄ : fs (root ++ s₄ ++ rustToLower feat) <;>
          simp only [Project.init, getVar, Subdir.new, h₁, h₂, h₃, h₄, hf₁, hf₂, hf₃, hf₄,
            if_true, if_false, Bool.false_eq_true, reduceIte] <;>
          simp_all
  all_goals exact ⟨_, by assumption, rfl⟩

/-- Filesystem for the C1 witness: exactly the four expected role paths
exist. -/
def fsC1 : String → Bool := fun p =>
  p == "/r/features/feat" || p == "/r/interactions/feat" ||
    p == "/r/pages/feat" || p == "/r/steps/feat"

/-- Witness for C1 at a concrete root, feature and environment. -/
theorem c1_witness :
    ((∃ p, Project.init fsC1 envC "/r" "Feat" = .ok p) ↔
      (fsC1 ("/r" ++ "/features/" ++ rustToLower "Feat") = true ∧
       fsC1 ("/r" ++ "/interactions/" ++ rustToLower "Feat") = true ∧
       fsC1 ("/r" ++ "/pages/" ++ rustToLower "Feat") = true ∧
       fsC1 ("/r" ++ "/steps/" ++ rustToLower "Feat") = true)) ∧
    (∀ p, Project.init fsC1 envC "/r" "Feat" = .ok p →
      p = ⟨rustToLower "Feat",
           ⟨"/r" ++ "/features/" ++ rustToLower "Feat", DirType.Features⟩,
           ⟨"/r" ++ "/interactions/" ++ rustToLower "Feat", DirType.Interactions⟩,
           ⟨"/r" ++ "/pages/" ++ rustToLower "Feat", DirType.Pages⟩,
           ⟨"/r" ++ "/steps/" ++ rustToLower "Feat", DirType.Steps⟩⟩) ∧
    (∀ e, Project.init fsC1 envC "/r" "Feat" = .error e →
      ∃ q, fsC1 q = false ∧ e = "Could not locate " ++ q) :=
  c1_layout_resolution fsC1 envC "/r" "Feat" "/features/" "/interactions/" "/pages/" "/steps/"
    rfl rfl rfl rfl

/-! ### C9 -/

/-- A filesystem on which every path exists. -/
def fsTrue : String → Bool := fun _ => true

/-- Counterexample to C9 as stated: with every path existing, layout
resolution succeeds on the empty feature name, so a ProjectLayout with an
empty feature name is constructible. -/
theorem c9_counterexample :
    ∃ p, Project.init fsTrue envC "/r" "" = .ok p ∧ p.feature_being_tested = "" :=
  ⟨⟨"", ⟨"/r/features/", DirType.Features⟩, ⟨"/r/interactions/", DirType.Interactions⟩,
    ⟨"/r/pages/", DirType.Pages⟩, ⟨"/r/steps/", DirType.Steps⟩⟩, rfl, rfl⟩

/-- Inversion for a successful existence check. -/
theorem Subdir.new_ok_inv {fs : String → Bool} {ps : String} {t : DirType} {sd : Subdir}
    (h : Subdir.new fs ps t = .ok sd) : sd = ⟨ps, t⟩ := by
  unfold Subdir.new at h
  by_cases hf : fs ps = true
  · rw [if_pos hf] at h
    cases h
    rfl
  · rw [if_neg hf] at h
    exact absurd h (by simp)

/-- C9 amended: every successfully constructed layout holds all four roles,
one Subdirectory each, and its feature name is the lowercased input — which
the code never checks for emptiness, so it may be empty. -/
theorem c9_layout_invariant (fs : String → Bool) (env : Env) (root feat : String)
    (p : Project) (h : Project.init fs env root feat = .ok p) :
    p.features_subdir.subdir_type = DirType.Features ∧
    p.interactions_subdir.subdir_type = DirType.Interactions ∧
    p.pages_subdir.subdir_type = DirType.Pages ∧
    p.steps_subdir.subdir_type = DirType.Steps ∧
    p.feature_being_tested = rustToLower feat := by
  simp only [Project.init] at h
  cases hv₁ : getVar env.features_path with
  | error e => simp only [hv₁] at h; exact absurd h (by simp)
  | ok s₁ =>
  simp only [hv₁] at h
  cases hs₁ : Subdir.new fs (root ++ s₁ ++ rustToLower feat) DirType.Features with
  | error e => simp only [hs₁] at h; exact absurd h (by simp)
  | ok sd₁ =>
  simp only [hs₁] at h
  cases hv₂ : getVar env.interactions_path with
  | error e => simp only [hv₂] at h; exact absurd h (by simp)
  | ok s₂ =>
  simp only [hv₂] at h
  cases hs₂ : Subdir.new fs (root ++ s₂ ++ rustToLower feat) DirType.Interactions with
  | error e => simp only [hs₂] at h; exact absurd h (by simp)
  | ok sd₂ =>
  simp only [hs₂] at h
  cases hv₃ : getVar env.pages_path with
  | error e => simp only [hv₃] at h; exact absurd h (by simp)
  | ok s₃ =>
  simp only [hv₃] at h
  cases hs₃ : Subdir.new fs (root ++ s₃ ++ rustToLower feat) DirType.Pages with
  | error e => simp only [hs₃] at h; exact absurd h (by simp)
  | ok sd₃ =>
  simp only [hs₃] at h
  cases hv₄ : getVar env.steps_path with
  | error e => simp only [hv₄] at h; exact absurd h (by simp)
  | ok s₄ =>
  simp only [hv₄] at h
  cases hs₄ : Subdir.new fs (root ++ s₄ ++ rustToLower feat) DirType.Steps with
  | error e => simp only [hs₄] at h; exact absurd h (by simp)
  | ok sd₄ =>
  simp only [hs₄] at h
  cases h
  rw [Subdir.new_ok_inv hs₁, Subdir.new_ok_inv hs₂, Subdir.new_ok_inv hs₃, Subdir.new_ok_inv hs₄]
  exact ⟨rfl, rfl, rfl, rfl, rfl⟩

/-- Witness for the amended C9 at a concrete successful resolution. -/
theorem c9_witness :
    (⟨"feat", ⟨"/r/features/feat", DirType.Features⟩,
      ⟨"/r/interactions/feat", DirType.Interactions⟩, ⟨"/r/pages/feat", DirType.Pages⟩,
      ⟨"/r/steps/feat", DirType.Steps⟩⟩ : Project).features_subdir.subdir_type =
        DirType.Features ∧
    (⟨"feat", ⟨"/r/features/feat", DirType.Features⟩,
      ⟨"/r/interactions/feat", DirType.Interactions⟩, ⟨"/r/pages/feat", DirType.Pages⟩,
      ⟨"/r/steps/feat", DirType.Steps⟩⟩ : Project).interactions_subdir.subdir_type =
        DirType.Interactions ∧
    (⟨"feat", ⟨"/r/features/feat", DirType.Features⟩,
      ⟨"/r/interactions/feat", DirType.Interactions⟩, ⟨"/r/pages/feat", DirType.Pages⟩,
      ⟨"/r/steps/feat", DirType.Steps⟩⟩ : Project).pages_subdir.subdir_type = DirType.Pages ∧
    (⟨"feat", ⟨"/r/features/feat", DirType.Features⟩,
      ⟨"/r/interactions/feat", DirType.Interactions⟩, ⟨"/r/pages/feat", DirType.Pages⟩,
      ⟨"/r/steps/feat", DirType.Steps⟩⟩ : Project).steps_subdir.subdir_type = DirType.Steps ∧
    (⟨"feat", ⟨"/r/features/feat", DirType.Features⟩,
      ⟨"/r/interactions/feat", DirType.Interactions⟩, ⟨"/r/pages/feat", DirType.Pages⟩,
      ⟨"/r/steps/feat", DirType.Steps⟩⟩ : Project).feature_being_tested = rustToLower "Feat" :=
  c9_layout_invariant fsC1 envC "/r" "Feat" _ (by rfl)

end LintApptester
